import Mathlib

/-!
Verification of the domain-join / streaming-filter core of the
downthestreet repository.

The embedding models the two central modules:

* find_rss_urls.py — extract_domain, process_in_chunks (feed table build,
  chunked metadata load, domain join), filter_about_pages_streaming
  (chunked DISTINCT/LIKE filtering over the persisted joined table);
* filter.py — find_about_pages_duckdb_fast (regex boundary matching with
  an exact-equality domain join).

Strings are modelled as List Char.  SQL tables are modelled as Lean lists
and the queries as deterministic list operations (the SQL in the source
carries no ORDER BY; the embedding fixes the natural file order, with
DISTINCT keeping the first occurrence).  Bounded recursion that the source
expresses as while loops is modelled with an explicit fuel parameter so
that every definition is executable by the kernel; the fuel passed by the
wrapper definitions is always sufficient, as proved in the lemmas below.
-/

/-- Boolean prefix test with propositional character equality, the
startswith check used by the replacement and substring tests below. -/
def pfx : List Char → List Char → Bool
  | [], _ => true
  | _ :: _, [] => false
  | a :: as, b :: bs => if a = b then pfx as bs else false

/-- Python str.replace semantics (left-to-right, non-overlapping scan), with
fuel.  Each step consumes at least one character of the input when the
pattern is non-empty, so fuel of length plus one is always enough; when fuel
runs out the remaining input is returned unchanged. -/
def replaceAllF (pat rep : List Char) : Nat → List Char → List Char
  | 0, l => l
  | _ + 1, [] => []
  | fuel + 1, c :: rest =>
    if !pat.isEmpty && pfx pat (c :: rest) then
      rep ++ replaceAllF pat rep fuel ((c :: rest).drop pat.length)
    else
      c :: replaceAllF pat rep fuel rest

/-- Python s.replace(pat, rep) for all occurrences. -/
def replaceAll (pat rep l : List Char) : List Char :=
  replaceAllF pat rep (l.length + 1) l

/-- Characters of l before the first occurrence of sep; Python
s.split(sep)[0]. -/
def takeBefore (sep : Char) (l : List Char) : List Char :=
  l.takeWhile (fun c => decide (c ≠ sep))

/-- Embeds extract_domain of find_rss_urls.py (lines 68-73): remove every
occurrence of the two scheme strings, then keep the part before the first
slash, then the part before the first colon. -/
def extract_domain (url : List Char) : List Char :=
  takeBefore ':'
    (takeBefore '/'
      (replaceAll "https://".data []
        (replaceAll "http://".data [] url)))

/-- Boolean substring test: does p occur contiguously inside l?  This models
the SQL predicate position(p IN l) > 0 of the domain join (DuckDB position
returns a positive index exactly when the needle occurs, the empty needle
occurring at position 1). -/
def occursIn (p : List Char) : List Char → Bool
  | [] => pfx p []
  | l@(_ :: rest) => pfx p l || occursIn p rest

/-- Lower-casing of a string, modelling SQL LOWER applied character-wise. -/
def lowerChars (l : List Char) : List Char :=
  l.map Char.toLower


/-- SQL LIKE pattern matching with percent and underscore wildcards, with
fuel.  Each recursive step removes a character from the pattern or from the
string, so fuel exceeding their combined length always suffices. -/
def likeMatchF : Nat → List Char → List Char → Bool
  | 0, _, _ => false
  | _ + 1, [], s => s.isEmpty
  | fuel + 1, c :: ps, s =>
    if c = '%' then
      likeMatchF fuel ps s ||
        (match s with
          | [] => false
          | _ :: s' => likeMatchF fuel (c :: ps) s')
    else
      match s with
      | [] => false
      | d :: s' => (if c = '_' then true else decide (c = d)) && likeMatchF fuel ps s'

/-- The SQL test s LIKE pat, with sufficient fuel supplied. -/
def sqlLike (s pat : List Char) : Bool :=
  likeMatchF (pat.length + s.length + 1) pat s


/-- Row of the feeds table created by process_in_chunks: the feed URL
(column0 of feeds.csv) and its extracted domain. -/
structure FeedRecord where
  feed_url : List Char
  feed_domain : List Char
deriving DecidableEq

/-- Row of the urls_meta table: url (column0), extracted url_domain, title
(column2) and description (column3).  All four are nullable: a parquet row
may carry a NULL url, and the registered UDF propagates NULL inputs to NULL
outputs without being invoked (the default null handling of
conn.create_function). -/
structure MetaRecord where
  url : Option (List Char)
  url_domain : Option (List Char)
  title : Option (List Char)
  description : Option (List Char)
deriving DecidableEq

/-- Raw metadata row as read from the parquet source: column0 (url),
column2 (title), column3 (description). -/
structure RawMetaRow where
  column0 : Option (List Char)
  column2 : Option (List Char)
  column3 : Option (List Char)
deriving DecidableEq

/-- Row of the persisted joined table (the six JoinedRecord fields).  The
url-side fields are nullable because the join in process_in_chunks is a
LEFT JOIN: a feed with no matching metadata row is emitted with NULLs. -/
structure JoinedRecord where
  feed_url : List Char
  feed_domain : List Char
  url : Option (List Char)
  url_domain : Option (List Char)
  title : Option (List Char)
  description : Option (List Char)
deriving DecidableEq

/-- The diagnostic raised by the feeds table creation of process_in_chunks.
Its select list (line 93) reads SELECT dd column0 as feed_url, ...: the
token dd parses as an expression with bare alias column0, after which the
keyword as is a syntax error, so DuckDB rejects the statement. -/
def feedsDdlError : List Char :=
  "Parser Error: syntax error at or near as (line 93)".data

/-- Executes the CREATE TABLE feeds statement of process_in_chunks (lines
91-99).  Because of the stray token dd in its select list the statement
fails to parse for every input, so the feeds table is never created: the
result is always the raised error, never a table of FeedRecords. -/
def createFeedsTable (_col0s : List (List Char)) :
    Except (List Char) (List FeedRecord) :=
  .error feedsDdlError

/-- Projection of one raw parquet row into a urls_meta row (the select list
of the INSERT at lines 120-130); a NULL column0 yields NULL url and NULL
url_domain. -/
def rawToMeta (r : RawMetaRow) : MetaRecord :=
  ⟨r.column0, r.column0.map extract_domain, r.column2, r.column3⟩

/-- The chunk of source rows read by one INSERT of the metadata loading
loop: LIMIT cs OFFSET off against the raw parquet rows, then the projection
of each row. -/
def loadChunk (src : List RawMetaRow) (cs off : Nat) : List MetaRecord :=
  ((src.drop off).take cs).map rawToMeta

/-- Common skeleton of the two chunked while loops of find_rss_urls.py
(metadata loading, lines 119-133, and streaming filtering, lines 184-216):
starting from an offset, as long as the offset is below the total row
count, emit the chunk read at the current offset and advance the offset by
the chunk size.  The fuel argument bounds the number of iterations; none is
returned when it is exhausted before the loop condition fails. -/
def chunkLoopF (chunk : Nat → List α) : Nat → Nat → Nat → Nat → Option (List α)
  | 0, _, _, _ => none
  | fuel + 1, cs, off, total =>
    if off < total then
      (chunkLoopF chunk fuel cs (off + cs) total).map (fun rest => chunk off ++ rest)
    else
      some []

/-- Iteration counter of the same loop skeleton: how many times the body of
the while loop runs before the offset reaches the total, or none if the
fuel is exhausted first (in particular, a loop that cannot terminate yields
none for every fuel). -/
def loopSteps : Nat → Nat → Nat → Nat → Option Nat
  | 0, _, _, _ => none
  | fuel + 1, cs, off, total =>
    if off < total then
      (loopSteps fuel cs (off + cs) total).map (· + 1)
    else
      some 0

/-- Ceiling division, the expected iteration count of the chunked loops. -/
def cdiv (a b : Nat) : Nat := (a + b - 1) / b

/-- The chunked metadata load of process_in_chunks (lines 111-133): the
total row count is probed first, then chunks are inserted at offsets 0, cs,
2*cs, ... while the offset is below the total. -/
def load_urls_meta (src : List RawMetaRow) (cs : Nat) : Option (List MetaRecord) :=
  chunkLoopF (loadChunk src cs) (src.length + 1) cs 0 src.length

/-- The domain join of process_in_chunks (lines 141-155): feeds LEFT JOIN
urls_meta ON position(feed_domain IN url_domain) > 0.  Every feed is paired
with each metadata row whose non-NULL url_domain contains its feed_domain
as a substring; a feed with no such row is emitted once with NULL url-side
fields.  The metadata rows matching one feed under the join predicate: -/
def joinMatches (f : FeedRecord) (metas : List MetaRecord) : List MetaRecord :=
  metas.filter (fun u =>
    match u.url_domain with
    | none => false
    | some d => occursIn f.feed_domain d)

/-- One output group of the LEFT JOIN for a single feed row: all matching
metadata rows, or a single NULL-padded row when none match. -/
def joinGroup (f : FeedRecord) (metas : List MetaRecord) : List JoinedRecord :=
  if (joinMatches f metas).isEmpty then
    [⟨f.feed_url, f.feed_domain, none, none, none, none⟩]
  else
    (joinMatches f metas).map
      (fun u => ⟨f.feed_url, f.feed_domain, u.url, u.url_domain, u.title, u.description⟩)

def joinRows (feeds : List FeedRecord) (metas : List MetaRecord) : List JoinedRecord :=
  feeds.flatMap (fun f => joinGroup f metas)

/-- Embeds process_in_chunks of find_rss_urls.py: execute the feeds table
creation, then load urls_meta in chunks and persist the domain join.  The
error layer carries a raised exception; the inner Option is none when the
chunked load cannot terminate (chunk size zero on a nonempty source).
Since the feeds statement always raises, execution never reaches the
loader or the join, and the function raises on every input. -/
def process_in_chunks (feedCol0s : List (List Char)) (src : List RawMetaRow)
    (cs : Nat) : Except (List Char) (Option (List JoinedRecord)) :=
  match createFeedsTable feedCol0s with
  | .error e => .error e
  | .ok feeds => .ok ((load_urls_meta src cs).map (fun metas => joinRows feeds metas))

/-- Removes duplicates keeping the first occurrence, skipping elements seen
before; SQL DISTINCT semantics over an ordered result. -/
def dedupFirstAux [DecidableEq α] (seen : List α) : List α → List α
  | [] => []
  | a :: as => if a ∈ seen then dedupFirstAux seen as else a :: dedupFirstAux (a :: seen) as

/-- DISTINCT over a list of rows, keeping the first occurrence of each. -/
def dedupFirst [DecidableEq α] (l : List α) : List α :=
  dedupFirstAux [] l

/-- The WHERE clause of the streaming filter query (lines 194-198): the row
is kept when some pattern p satisfies LOWER(url) LIKE '%' || LOWER(p) ||
'%'.  A row with NULL url is never kept (NULL comparisons do not satisfy
the EXISTS). -/
def rowMatches (pats : List (List Char)) (r : JoinedRecord) : Bool :=
  match r.url with
  | none => false
  | some u => pats.any (fun p => sqlLike (lowerChars u) ('%' :: lowerChars p ++ ['%']))

/-- One chunk query of filter_about_pages_streaming (lines 185-201):
SELECT DISTINCT the six fields WHERE the pattern test holds, LIMIT cs
OFFSET off.  Following SQL evaluation order, the limit and offset apply
after the WHERE filter and the DISTINCT deduplication. -/
def queryChunk (tbl : List JoinedRecord) (pats : List (List Char)) (cs off : Nat) :
    List JoinedRecord :=
  (((dedupFirst (tbl.filter (rowMatches pats))).drop off).take cs)

/-- Embeds filter_about_pages_streaming of find_rss_urls.py (lines
163-221): the total row count of the input parquet is probed, then chunk
queries are issued at offsets 0, cs, 2*cs, ... while the offset is below
that total, the rows of each chunk being yielded in order. -/
def filter_about_pages_streaming (tbl : List JoinedRecord) (pats : List (List Char))
    (cs : Nat) : Option (List JoinedRecord) :=
  chunkLoopF (queryChunk tbl pats cs) (tbl.length + 1) cs 0 tbl.length

/-- The ABOUT_PATTERNS constant of find_rss_urls.py (lines 6-58). -/
def ABOUT_PATTERNS : List (List Char) :=
  ["/about".data, "/about-me".data, "/bio".data, "/biography".data, "/me".data,
   "/who-am-i".data, "/about/me".data, "/hello".data, "/introduction".data,
   "/personal".data, "/profile".data, "/my-story".data, "/my-journey".data,
   "/about-the-author".data, "/meet-me".data,
   "/sobre-mi".data, "/quien-soy".data, "/acerca-de-mi".data, "/mi-biografia".data,
   "/mi-historia".data, "/biografia".data, "/presentacion".data, "/perfil".data,
   "/conoceme".data, "/hola".data,
   "/ueber-mich".data, "/über-mich".data, "/ich".data, "/meine-geschichte".data,
   "/biografie".data, "/das-bin-ich".data, "/steckbrief".data, "/vorstellung".data,
   "/hallo".data, "/personliches".data, "/persönliches".data,
   "/a-propos".data, "/qui-suis-je".data, "/biographie".data, "/ma-bio".data,
   "/mon-parcours".data, "/me-connaitre".data, "/me-connaître".data,
   "/presentation".data, "/présentation".data, "/bonjour".data, "/mon-histoire".data]

/-- The ABOUT_PATTERNS constant of filter.py (lines 4-55); it lacks the
"/profile" entry of the find_rss_urls.py list. -/
def ABOUT_PATTERNS_FILTER : List (List Char) :=
  ["/about".data, "/about-me".data, "/bio".data, "/biography".data, "/me".data,
   "/who-am-i".data, "/about/me".data, "/hello".data, "/introduction".data,
   "/personal".data, "/my-story".data, "/my-journey".data,
   "/about-the-author".data, "/meet-me".data,
   "/sobre-mi".data, "/quien-soy".data, "/acerca-de-mi".data, "/mi-biografia".data,
   "/mi-historia".data, "/biografia".data, "/presentacion".data, "/perfil".data,
   "/conoceme".data, "/hola".data,
   "/ueber-mich".data, "/über-mich".data, "/ich".data, "/meine-geschichte".data,
   "/biografie".data, "/das-bin-ich".data, "/steckbrief".data, "/vorstellung".data,
   "/hallo".data, "/personliches".data, "/persönliches".data,
   "/a-propos".data, "/qui-suis-je".data, "/biographie".data, "/ma-bio".data,
   "/mon-parcours".data, "/me-connaitre".data, "/me-connaître".data,
   "/presentation".data, "/présentation".data, "/bonjour".data, "/mon-histoire".data]

/-- Domain extraction of filter.py: REGEXP_EXTRACT with no group argument
returns group 0, the whole match of the anchored regex — the optional
scheme, when present, followed by one or more non-slash characters, so the
scheme is retained in the extracted value.  When the part after a
recognised scheme starts with a slash or is empty, the one-or-more group
cannot match there and the engine retries without consuming the scheme,
which the fallback branch reproduces; an input starting with a slash (or
empty) has no match at all and extraction yields the empty string, which
the same fallback reproduces.  No port stripping occurs. -/
def fastExtractDomain (url : List Char) : List Char :=
  if "https://".data.isPrefixOf url then
    let d := (url.drop 8).takeWhile (fun c => decide (c ≠ '/'))
    if d.isEmpty then url.takeWhile (fun c => decide (c ≠ '/'))
    else "https://".data ++ d
  else if "http://".data.isPrefixOf url then
    let d := (url.drop 7).takeWhile (fun c => decide (c ≠ '/'))
    if d.isEmpty then url.takeWhile (fun c => decide (c ≠ '/'))
    else "http://".data ++ d
  else
    url.takeWhile (fun c => decide (c ≠ '/'))

/-- Does pattern p occur in u immediately followed by the end of the string
or a question mark?  This is the per-pattern reading of the filter.py regex
alternation suffixed with the group matching end-of-string or a literal
question mark. -/
def boundaryHit (p : List Char) : List Char → Bool
  | [] => pfx p []
  | u@(_ :: rest) =>
    (pfx p u && (let t := u.drop p.length; t.isEmpty || t.headD ' ' = '?')) ||
      boundaryHit p rest

/-- The REGEXP_MATCHES test of filter.py (line 112) against its pattern
union: some pattern occurs at a position where it is followed by the end of
the URL or by a question mark.  The match is case-sensitive. -/
def fastPatternMatch (u : List Char) : Bool :=
  ABOUT_PATTERNS_FILTER.any (fun p => boundaryHit p u)

/-- The query of find_about_pages_duckdb_fast (filter.py lines 90-120):
keep the URLs passing the boundary-pattern test, inner-join them to the
feed domains by exact equality of extracted domains, and return the
distinct URLs. -/
def fastQuery (feedCol2s : List (List Char)) (urlCol0s : List (List Char)) :
    List (List Char) :=
  let feedDomains := feedCol2s.map fastExtractDomain
  dedupFirst
    ((urlCol0s.filter fastPatternMatch).flatMap (fun u =>
      (feedDomains.filter (fun d => decide (d = fastExtractDomain u))).map (fun _ => u)))

/-- Embeds the error handling of find_about_pages_duckdb_fast (filter.py
lines 137-142): the whole body runs under a catch-all handler that prints
the exception and returns the empty list, so a failed run is reported
exactly like a successful run with no matches.  The argument stands for the
outcome of the fallible body: the loaded tables on success, or the raised
error. -/
def find_about_pages_duckdb_fast
    (run : Except (List Char) (List (List Char) × List (List Char))) :
    List (List Char) :=
  match run with
  | .error _ => []
  | .ok (feeds, urls) => fastQuery feeds urls

/-- Streaming-filter loop with a fallible chunk read (the conn.execute of
lines 185-201 may raise).  The result pairs the rows yielded before
completion or failure with the terminal error, if any: the generator body
has no exception handler, so a failed read ends the generation immediately
and the raised error reaches the consumer after the rows already yielded.
Fuel exhaustion yields none. -/
def filterLoopE (read : Nat → Except (List Char) (List JoinedRecord)) :
    Nat → Nat → Nat → Nat → Option (List JoinedRecord × Option (List Char))
  | 0, _, _, _ => none
  | fuel + 1, cs, off, total =>
    if off < total then
      match read off with
      | .error e => some ([], some e)
      | .ok rows =>
        (filterLoopE read fuel cs (off + cs) total).map
          (fun p => (rows ++ p.1, p.2))
    else
      some ([], none)

/-- Concrete joined row: the aboutish URL of the spec scenario, joined to
its own feed. -/
def aboutishRow : JoinedRecord :=
  ⟨"https://x.example/feed".data, "x.example".data,
    some "https://x.example/aboutish".data, some "x.example".data, none, none⟩

/-- Concrete joined row: a www subdomain URL joined to a bare feed domain
through the substring join. -/
def wwwRow : JoinedRecord :=
  ⟨"https://example.com/feed".data, "example.com".data,
    some "https://www.example.com/about".data, some "www.example.com".data, none, none⟩

/-- Concrete joined row whose URL matches no about pattern. -/
def rowNoMatch : JoinedRecord :=
  ⟨"https://a.example/feed".data, "a.example".data,
    some "https://a.example/".data, some "a.example".data, none, none⟩

/-- Concrete joined row whose URL matches the pattern /about. -/
def rowMatch : JoinedRecord :=
  ⟨"https://a.example/feed".data, "a.example".data,
    some "https://a.example/about".data, some "a.example".data, none, none⟩

/-- Concrete joined row whose URL carries the about pattern in upper case,
joined to its own feed. -/
def upperRow : JoinedRecord :=
  ⟨"https://x.example/feed".data, "x.example".data,
    some "https://x.example/ABOUT".data, some "x.example".data, none, none⟩

/-- Concrete raw metadata row with a NULL URL column. -/
def nullUrlRaw : RawMetaRow := ⟨none, some "T".data, some "D".data⟩

/-- The urls_meta row the loader derives from nullUrlRaw. -/
def nullUrlMeta : MetaRecord := ⟨none, none, some "T".data, some "D".data⟩

/-- Concrete chunk-read oracle whose first read succeeds and whose second
read raises. -/
def badRead : Nat → Except (List Char) (List JoinedRecord) :=
  fun off => if off = 0 then .ok [rowMatch] else .error "disk failure".data

/-! Basic properties of the substring layer. -/

/-- pfx is the prefix relation in explicit append form. -/
theorem pfx_iff_append (p l : List Char) : pfx p l = true ↔ ∃ t, l = p ++ t := by
  induction p generalizing l with
  | nil => simp [pfx]
  | cons a as ih =>
    cases l with
    | nil => simp [pfx]
    | cons b bs =>
      by_cases hab : a = b
      · subst hab
        simp [pfx, ih]
      · simp only [pfx, if_neg hab, List.cons_append, List.cons.injEq]
        constructor
        · intro h; cases h
        · rintro ⟨t, hb, -⟩; exact absurd hb.symm hab

/-- occursIn is the contiguous-substring relation in explicit append form. -/
theorem occursIn_iff_append (p l : List Char) :
    occursIn p l = true ↔ ∃ a b, l = a ++ p ++ b := by
  induction l with
  | nil =>
    simp only [occursIn, pfx_iff_append]
    constructor
    · rintro ⟨t, ht⟩
      rcases List.append_eq_nil.mp ht.symm with ⟨hp, htn⟩
      exact ⟨[], [], by simp [hp]⟩
    · rintro ⟨a, b, h⟩
      rcases List.append_eq_nil.mp h.symm with ⟨hab, hb⟩
      rcases List.append_eq_nil.mp hab with ⟨ha, hp⟩
      exact ⟨[], by simp [hp]⟩
  | cons c rest ih =>
    simp only [occursIn, Bool.or_eq_true, pfx_iff_append, ih]
    constructor
    · rintro (⟨t, ht⟩ | ⟨a, b, h⟩)
      · exact ⟨[], t, by simp [ht]⟩
      · exact ⟨c :: a, b, by simp [h]⟩
    · rintro ⟨a, b, h⟩
      cases a with
      | nil => exact Or.inl ⟨b, by simpa using h⟩
      | cons a0 as =>
        have h' : c = a0 ∧ rest = as ++ p ++ b := by simpa using h
        exact Or.inr ⟨as, b, h'.2⟩

/-- A pattern containing a character absent from the text never occurs. -/
theorem occursIn_eq_false_of_not_mem (p l : List Char) (x : Char)
    (hx : x ∈ p) (hl : ∀ c ∈ l, c ≠ x) : occursIn p l = false := by
  by_contra h
  have h' : occursIn p l = true := by
    cases hocc : occursIn p l
    · exact absurd hocc h
    · rfl
  rcases (occursIn_iff_append p l).mp h' with ⟨a, b, rfl⟩
  exact hl x (by simp [hx]) rfl

/-! Properties of first-occurrence deduplication. -/

/-- Membership in the deduplicated list: present in the input and not
already seen. -/
theorem mem_dedupFirstAux [DecidableEq α] (seen l : List α) (a : α) :
    a ∈ dedupFirstAux seen l ↔ a ∈ l ∧ a ∉ seen := by
  induction l generalizing seen with
  | nil => simp [dedupFirstAux]
  | cons b bs ih =>
    simp only [dedupFirstAux]
    by_cases hb : b ∈ seen
    · rw [if_pos hb, ih]
      constructor
      · rintro ⟨h1, h2⟩; exact ⟨List.mem_cons_of_mem _ h1, h2⟩
      · rintro ⟨h1, h2⟩
        rcases List.mem_cons.mp h1 with rfl | h1
        · exact absurd hb h2
        · exact ⟨h1, h2⟩
    · rw [if_neg hb]
      simp only [List.mem_cons, ih, List.mem_cons]
      constructor
      · rintro (rfl | ⟨h1, h2⟩)
        · exact ⟨Or.inl rfl, hb⟩
        · exact ⟨Or.inr h1, fun hs => h2 (Or.inr hs)⟩
      · rintro ⟨rfl | h1, h2⟩
        · exact Or.inl rfl
        · by_cases hab : a = b
          · exact Or.inl hab
          · exact Or.inr ⟨h1, fun hs => by
              rcases hs with h | h
              · exact hab h
              · exact h2 h⟩

/-- The deduplicated list has no duplicates. -/
theorem nodup_dedupFirstAux [DecidableEq α] (seen l : List α) :
    (dedupFirstAux seen l).Nodup := by
  induction l generalizing seen with
  | nil => simp [dedupFirstAux]
  | cons b bs ih =>
    simp only [dedupFirstAux]
    by_cases hb : b ∈ seen
    · rw [if_pos hb]; exact ih seen
    · rw [if_neg hb]
      refine List.nodup_cons.mpr ⟨?_, ih (b :: seen)⟩
      intro hmem
      exact ((mem_dedupFirstAux (b :: seen) bs b).mp hmem).2 (List.mem_cons_self b seen)

/-- The deduplicated list is no longer than the input. -/
theorem length_dedupFirstAux_le [DecidableEq α] (seen l : List α) :
    (dedupFirstAux seen l).length ≤ l.length := by
  induction l generalizing seen with
  | nil => simp [dedupFirstAux]
  | cons b bs ih =>
    simp only [dedupFirstAux]
    by_cases hb : b ∈ seen
    · rw [if_pos hb]; exact Nat.le_succ_of_le (ih seen)
    · rw [if_neg hb]; simpa using Nat.succ_le_succ (ih (b :: seen))

/-- Membership version for the outer DISTINCT wrapper. -/
theorem mem_dedupFirst [DecidableEq α] (l : List α) (a : α) :
    a ∈ dedupFirst l ↔ a ∈ l := by
  simp [dedupFirst, mem_dedupFirstAux]

/-- Nodup version for the outer DISTINCT wrapper. -/
theorem nodup_dedupFirst [DecidableEq α] (l : List α) : (dedupFirst l).Nodup :=
  nodup_dedupFirstAux [] l

/-- Length version for the outer DISTINCT wrapper. -/
theorem length_dedupFirst_le [DecidableEq α] (l : List α) :
    (dedupFirst l).length ≤ l.length :=
  length_dedupFirstAux_le [] l

/-! Completeness of the chunked loops. -/

/-- If every chunk is the LIMIT/OFFSET slice of a fixed list M no longer
than the declared total, then the loop started at any offset, with enough
fuel to cover the remaining iterations, returns exactly the remainder of M
from that offset. -/
theorem chunkLoopF_complete {α : Type} (ch : Nat → List α) (M : List α) (cs total : Nat)
    (hch : ∀ off, ch off = ((M.drop off).take cs)) (hM : M.length ≤ total) :
    ∀ f off, total ≤ off + f * cs →
      chunkLoopF ch (f + 1) cs off total = some (M.drop off) := by
  intro f
  induction f with
  | zero =>
    intro off h
    simp only [Nat.zero_mul, Nat.add_zero] at h
    have hoff : ¬ off < total := Nat.not_lt.mpr h
    have hnil : M.drop off = [] := List.drop_eq_nil_of_le (le_trans hM h)
    simp [chunkLoopF, hoff, hnil]
  | succ f ih =>
    intro off h
    by_cases hoff : off < total
    · have hrec : chunkLoopF ch (f + 1) cs (off + cs) total = some (M.drop (off + cs)) := by
        apply ih
        have : total ≤ off + (f * cs + cs) := by
          simpa [Nat.succ_mul, Nat.add_assoc] using h
        omega
      have hdrop : M.drop (off + cs) = (M.drop off).drop cs := by
        rw [List.drop_drop]
      calc chunkLoopF ch (f + 1 + 1) cs off total
          = (chunkLoopF ch (f + 1) cs (off + cs) total).map (fun rest => ch off ++ rest) := by
            simp [chunkLoopF, hoff]
        _ = some (ch off ++ M.drop (off + cs)) := by rw [hrec]; rfl
        _ = some (M.drop off) := by
            rw [hch off, hdrop, List.take_append_drop]
    · have hle : total ≤ off := Nat.not_lt.mp hoff
      have hnil : M.drop off = [] := List.drop_eq_nil_of_le (le_trans hM hle)
      simp [chunkLoopF, hoff, hnil]

/-- The streaming filter run: with any positive chunk size the loop
terminates and yields exactly the deduplicated filtered match set of the
whole input table, in order. -/
theorem filter_streaming_run (tbl : List JoinedRecord) (pats : List (List Char))
    (cs : Nat) (hcs : 1 ≤ cs) :
    filter_about_pages_streaming tbl pats cs =
      some (dedupFirst (tbl.filter (rowMatches pats))) := by
  have hlen : (dedupFirst (tbl.filter (rowMatches pats))).length ≤ tbl.length :=
    le_trans (length_dedupFirst_le _) (List.length_filter_le _ _)
  have hbound : tbl.length ≤ 0 + tbl.length * cs := by
    have := Nat.le_mul_of_pos_right tbl.length (show 0 < cs from hcs)
    omega
  have := chunkLoopF_complete (queryChunk tbl pats cs)
    (dedupFirst (tbl.filter (rowMatches pats))) cs tbl.length
    (fun off => rfl) hlen tbl.length 0 hbound
  simpa [filter_about_pages_streaming] using this

/-- The metadata load run: with any positive chunk size the loop terminates
and the loaded table is the row-wise projection of the whole source. -/
theorem load_urls_meta_run (src : List RawMetaRow) (cs : Nat) (hcs : 1 ≤ cs) :
    load_urls_meta src cs = some (src.map rawToMeta) := by
  have hch : ∀ off, loadChunk src cs off = (((src.map rawToMeta).drop off).take cs) := by
    intro off
    simp [loadChunk, List.map_take, List.map_drop]
  have hlen : (src.map rawToMeta).length ≤ src.length := by simp
  have hbound : src.length ≤ 0 + src.length * cs := by
    have := Nat.le_mul_of_pos_right src.length (show 0 < cs from hcs)
    omega
  have := chunkLoopF_complete (loadChunk src cs) (src.map rawToMeta) cs src.length
    hch hlen src.length 0 hbound
  simpa [load_urls_meta] using this

/-! Iteration counts of the chunked loops. -/

/-- Ceiling division advances by one when one chunk is consumed. -/
theorem cdiv_step (m cs : Nat) (hm : 1 ≤ m) (hcs : 1 ≤ cs) :
    cdiv m cs = cdiv (m - cs) cs + 1 := by
  unfold cdiv
  by_cases h : m ≤ cs
  · have h1 : m - cs = 0 := by omega
    have h2 : m + cs - 1 = (m - 1) + cs := by omega
    rw [h1, h2, Nat.add_div_right _ (by omega : 0 < cs)]
    have h3 : (m - 1) / cs = 0 := Nat.div_eq_of_lt (by omega)
    have h4 : (0 + cs - 1) / cs = 0 := Nat.div_eq_of_lt (by omega)
    omega
  · have h2 : m + cs - 1 = (m - 1) + cs := by omega
    have h5 : m - cs + cs - 1 = (m - 1 - cs) + cs := by omega
    have h6 : m - 1 = (m - 1 - cs) + cs := by omega
    rw [h2, h5, Nat.add_div_right _ (by omega : 0 < cs),
      Nat.add_div_right _ (by omega : 0 < cs)]
    have := congrArg (· / cs) h6
    simp only at this
    rw [this, Nat.add_div_right _ (by omega : 0 < cs)]

/-- With positive chunk size and enough fuel, the loop counter returns the
ceiling of the remaining row count over the chunk size. -/
theorem loopSteps_run (cs total : Nat) (hcs : 1 ≤ cs) :
    ∀ f off, total ≤ off + f * cs →
      loopSteps (f + 1) cs off total = some (cdiv (total - off) cs) := by
  intro f
  induction f with
  | zero =>
    intro off h
    simp only [Nat.zero_mul, Nat.add_zero] at h
    have hoff : ¬ off < total := Nat.not_lt.mpr h
    have : total - off = 0 := by omega
    simp [loopSteps, hoff, this, cdiv, Nat.div_eq_of_lt (by omega : cs - 1 < cs)]
  | succ f ih =>
    intro off h
    by_cases hoff : off < total
    · have hrec : loopSteps (f + 1) cs (off + cs) total =
          some (cdiv (total - (off + cs)) cs) := by
        apply ih
        have : total ≤ off + (f * cs + cs) := by
          simpa [Nat.succ_mul, Nat.add_assoc] using h
        omega
      have hstep : cdiv (total - off) cs = cdiv (total - off - cs) cs + 1 :=
        cdiv_step (total - off) cs (by omega) hcs
      have harg : total - (off + cs) = total - off - cs := by omega
      calc loopSteps (f + 1 + 1) cs off total
          = (loopSteps (f + 1) cs (off + cs) total).map (· + 1) := by
            simp [loopSteps, hoff]
        _ = some (cdiv (total - (off + cs)) cs + 1) := by rw [hrec]; rfl
        _ = some (cdiv (total - off) cs) := by rw [harg, ← hstep]
    · have : total - off = 0 := by omega
      simp [loopSteps, hoff, this, cdiv, Nat.div_eq_of_lt (by omega : cs - 1 < cs)]

/-- Whenever the loop counter terminates it reports exactly the ceiling
count, for any fuel. -/
theorem loopSteps_unique (cs total : Nat) (hcs : 1 ≤ cs) :
    ∀ f off k, loopSteps f cs off total = some k → k = cdiv (total - off) cs := by
  intro f
  induction f with
  | zero => intro off k h; simp [loopSteps] at h
  | succ f ih =>
    intro off k h
    by_cases hoff : off < total
    · simp only [loopSteps, if_pos hoff, Option.map_eq_some'] at h
      rcases h with ⟨k', hk', rfl⟩
      have hih := ih (off + cs) k' hk'
      have hstep : cdiv (total - off) cs = cdiv (total - off - cs) cs + 1 :=
        cdiv_step (total - off) cs (by omega) hcs
      have harg : total - (off + cs) = total - off - cs := by omega
      rw [harg] at hih
      omega
    · simp only [loopSteps, if_neg hoff, Option.some.injEq] at h
      have h0 : total - off = 0 := by omega
      rw [h0]
      have : cdiv 0 cs = 0 := by
        simp [cdiv, Nat.div_eq_of_lt (by omega : cs - 1 < cs)]
      omega

/-- With chunk size zero and a nonempty input the loop never terminates:
the offset never advances, so every fuel is exhausted. -/
theorem loopSteps_zero_cs (total : Nat) :
    ∀ f off, off < total → loopSteps f 0 off total = none := by
  intro f
  induction f with
  | zero => intro off _; rfl
  | succ f ih =>
    intro off hoff
    simp only [loopSteps, if_pos hoff, Nat.add_zero]
    rw [ih off hoff]
    rfl

/-- The chunked loops of the source and the iteration counter terminate in
lockstep: for every fuel, one returns a value exactly when the other
does. -/
theorem chunkLoopF_isSome_eq_loopSteps {α : Type} (ch : Nat → List α) :
    ∀ f cs off total,
      (chunkLoopF ch f cs off total).isSome = (loopSteps f cs off total).isSome := by
  intro f
  induction f with
  | zero => intro cs off total; rfl
  | succ f ih =>
    intro cs off total
    by_cases hoff : off < total
    · simp [chunkLoopF, loopSteps, hoff, ih]
    · simp [chunkLoopF, loopSteps, hoff]

/-! The LIKE test against patterns of the form percent-literal-percent is
exactly the case-folded substring test. -/

/-- Unfolding: empty pattern. -/
theorem likeMatchF_step_nil (f : Nat) (s : List Char) :
    likeMatchF (f + 1) [] s = s.isEmpty := by
  simp [likeMatchF]

/-- Unfolding: percent pattern head, empty string. -/
theorem likeMatchF_step_pc_nil (f : Nat) (ps : List Char) :
    likeMatchF (f + 1) ('%' :: ps) [] = likeMatchF f ps [] := by
  simp [likeMatchF]

/-- Unfolding: percent pattern head, nonempty string. -/
theorem likeMatchF_step_pc_cons (f : Nat) (ps : List Char) (d : Char) (s' : List Char) :
    likeMatchF (f + 1) ('%' :: ps) (d :: s') =
      (likeMatchF f ps (d :: s') || likeMatchF f ('%' :: ps) s') := by
  simp [likeMatchF]

/-- Unfolding: literal pattern head, empty string. -/
theorem likeMatchF_step_lit_nil (f : Nat) (c : Char) (ps : List Char) (hc : c ≠ '%') :
    likeMatchF (f + 1) (c :: ps) [] = false := by
  simp [likeMatchF, hc]

/-- Unfolding: literal pattern head, nonempty string. -/
theorem likeMatchF_step_lit_cons (f : Nat) (c : Char) (ps : List Char) (d : Char)
    (s' : List Char) (hc1 : c ≠ '%') (hc2 : c ≠ '_') :
    likeMatchF (f + 1) (c :: ps) (d :: s') =
      (decide (c = d) && likeMatchF f ps s') := by
  simp [likeMatchF, hc1, hc2]

/-- A single percent matches every string, given enough fuel. -/
theorem likeMatchF_percent_all : ∀ (s : List Char) (f : Nat), s.length + 1 < f →
    likeMatchF f ['%'] s = true := by
  intro s
  induction s with
  | nil =>
    intro f hf
    cases f with
    | zero => omega
    | succ f1 =>
      cases f1 with
      | zero => omega
      | succ f2 =>
        rw [likeMatchF_step_pc_nil, likeMatchF_step_nil]
        rfl
  | cons d s' ih =>
    intro f hf
    cases f with
    | zero => omega
    | succ f1 =>
      have h1 : likeMatchF f1 ['%'] s' = true := ih f1 (by simp at hf; omega)
      rw [likeMatchF_step_pc_cons, h1, Bool.or_true]

/-- A wildcard-free literal followed by a percent matches exactly the
strings starting with the literal. -/
theorem likeMatchF_lit_percent : ∀ (w : List Char), '%' ∉ w → '_' ∉ w →
    ∀ (s : List Char) (f : Nat), w.length + s.length + 1 < f →
      likeMatchF f (w ++ ['%']) s = pfx w s := by
  intro w
  induction w with
  | nil =>
    intro _ _ s f hf
    show likeMatchF f ['%'] s = pfx [] s
    rw [likeMatchF_percent_all s f (by simpa using hf)]
    rfl
  | cons c w' ih =>
    intro h1 h2 s f hf
    have hc1 : c ≠ '%' := fun hc => h1 (by rw [← hc]; exact List.mem_cons_self c w')
    have hc2 : c ≠ '_' := fun hc => h2 (by rw [← hc]; exact List.mem_cons_self c w')
    have h1' : '%' ∉ w' := fun h => h1 (List.mem_cons_of_mem c h)
    have h2' : '_' ∉ w' := fun h => h2 (List.mem_cons_of_mem c h)
    cases f with
    | zero => omega
    | succ f1 =>
      cases s with
      | nil =>
        rw [show (c :: w') ++ ['%'] = c :: (w' ++ ['%']) from rfl,
          likeMatchF_step_lit_nil f1 c _ hc1]
        rfl
      | cons d s' =>
        rw [show (c :: w') ++ ['%'] = c :: (w' ++ ['%']) from rfl,
          likeMatchF_step_lit_cons f1 c _ d s' hc1 hc2,
          ih h1' h2' s' f1 (by simp at hf ⊢; omega)]
        by_cases hcd : c = d
        · subst hcd; simp [pfx]
        · simp [pfx, hcd]

/-- A pattern of the form percent, wildcard-free literal, percent matches
exactly the strings containing the literal as a contiguous substring. -/
theorem likeMatchF_contains : ∀ (s w : List Char), '%' ∉ w → '_' ∉ w →
    ∀ f : Nat, w.length + s.length + 2 < f →
      likeMatchF f ('%' :: (w ++ ['%'])) s = occursIn w s := by
  intro s
  induction s with
  | nil =>
    intro w h1 h2 f hf
    cases f with
    | zero => omega
    | succ f1 =>
      rw [likeMatchF_step_pc_nil,
        likeMatchF_lit_percent w h1 h2 [] f1 (by simp at hf ⊢; omega)]
      rfl
  | cons d s' ih =>
    intro w h1 h2 f hf
    cases f with
    | zero => omega
    | succ f1 =>
      rw [likeMatchF_step_pc_cons,
        likeMatchF_lit_percent w h1 h2 (d :: s') f1 (by simp at hf ⊢; omega),
        ih w h1 h2 f1 (by simp at hf ⊢; omega)]
      rfl

/-- The LIKE test the streaming filter issues is the substring test. -/
theorem sqlLike_contains (w s : List Char) (h1 : '%' ∉ w) (h2 : '_' ∉ w) :
    sqlLike s ('%' :: (w ++ ['%'])) = occursIn w s := by
  unfold sqlLike
  apply likeMatchF_contains s w h1 h2
  simp
  omega

/-- Characterization of the WHERE clause of the streaming filter: a row is
kept exactly when it has a URL and the lower-cased URL contains the
lower-cased text of some pattern, provided the lower-cased patterns are
free of LIKE wildcards. -/
theorem rowMatches_iff (pats : List (List Char)) (r : JoinedRecord)
    (hw : ∀ p ∈ pats, '%' ∉ lowerChars p ∧ '_' ∉ lowerChars p) :
    rowMatches pats r = true ↔
      ∃ u, r.url = some u ∧ ∃ p, p ∈ pats ∧ occursIn (lowerChars p) (lowerChars u) = true := by
  cases hr : r.url with
  | none => simp [rowMatches, hr]
  | some u =>
    simp only [rowMatches, hr, List.any_eq_true, Option.some.injEq]
    constructor
    · rintro ⟨p, hp, hmatch⟩
      refine ⟨u, rfl, p, hp, ?_⟩
      rw [List.cons_append] at hmatch
      rw [← sqlLike_contains (lowerChars p) (lowerChars u) (hw p hp).1 (hw p hp).2]
      exact hmatch
    · rintro ⟨u', hu', p, hp, hocc⟩
      subst hu'
      refine ⟨p, hp, ?_⟩
      rw [List.cons_append,
        sqlLike_contains (lowerChars p) (lowerChars u) (hw p hp).1 (hw p hp).2]
      exact hocc

/-- A joined row carrying a URL domain satisfies the join predicate: its
feed domain occurs inside that URL domain. -/
theorem joinRows_substring (feeds : List FeedRecord) (metas : List MetaRecord)
    (r : JoinedRecord) (d : List Char) (hr : r ∈ joinRows feeds metas)
    (hd : r.url_domain = some d) : occursIn r.feed_domain d = true := by
  simp only [joinRows, List.mem_flatMap] at hr
  rcases hr with ⟨f, hf, hin⟩
  by_cases hemp : (joinMatches f metas).isEmpty
  · rw [joinGroup, if_pos hemp] at hin
    simp only [List.mem_singleton] at hin
    subst hin
    simp at hd
  · rw [joinGroup, if_neg hemp] at hin
    rcases List.mem_map.mp hin with ⟨u, hu, rfl⟩
    have hcond := (List.mem_filter.mp hu).2
    have hd' : u.url_domain = some d := hd
    rw [hd'] at hcond
    simpa using hcond

/-! Behaviour of extract_domain on well-formed URLs. -/

/-- A list is a prefix of itself extended by anything. -/
theorem pfx_append_self (p t : List Char) : pfx p (p ++ t) = true := by
  induction p with
  | nil => rfl
  | cons a as ih => simpa [pfx] using ih

/-- If the pattern never occurs, the replacement pass leaves the input
unchanged, for any fuel. -/
theorem replaceAllF_no_occur (pat rep l : List Char) (h : occursIn pat l = false) :
    ∀ f, replaceAllF pat rep f l = l := by
  induction l with
  | nil => intro f; cases f <;> rfl
  | cons c rest ih =>
    intro f
    have hor : pfx pat (c :: rest) = false ∧ occursIn pat rest = false := by
      have := h
      simp only [occursIn, Bool.or_eq_false_iff] at this
      exact this
    cases f with
    | zero => rfl
    | succ f1 =>
      have hcond : (!pat.isEmpty && pfx pat (c :: rest)) = false := by
        rw [hor.1, Bool.and_false]
      simp only [replaceAllF, hcond, Bool.false_eq_true, if_false]
      rw [ih hor.2 f1]

/-- Replacing by the empty list strips a leading occurrence of the pattern
when the pattern occurs nowhere else. -/
theorem replaceAllF_strip (p0 : Char) (ps tail : List Char)
    (h : occursIn (p0 :: ps) tail = false) :
    ∀ f, replaceAllF (p0 :: ps) [] (f + 1) ((p0 :: ps) ++ tail) = tail := by
  intro f
  have hp : pfx (p0 :: ps) ((p0 :: ps) ++ tail) = true := pfx_append_self _ _
  have hcond : (!(p0 :: ps).isEmpty && pfx (p0 :: ps) ((p0 :: ps) ++ tail)) = true := by
    rw [hp]; rfl
  show replaceAllF (p0 :: ps) [] (f + 1) (p0 :: (ps ++ tail)) = tail
  simp only [replaceAllF]
  rw [show (p0 :: (ps ++ tail)) = (p0 :: ps) ++ tail from rfl]
  simp only [hcond, if_true]
  rw [List.drop_left, replaceAllF_no_occur _ _ _ h]
  rfl

/-- The scheme string for http contains no occurrence spanning into a
colon-free continuation of the https scheme string. -/
theorem no_http_in_https (tail : List Char) (h : ∀ c ∈ tail, c ≠ ':') :
    occursIn "http://".data ("https://".data ++ tail) = false := by
  have htail : occursIn "http://".data tail = false :=
    occursIn_eq_false_of_not_mem _ _ ':' (by decide) h
  show occursIn "http://".data
    ('h' :: 't' :: 't' :: 'p' :: 's' :: ':' :: '/' :: '/' :: tail) = false
  simp only [occursIn, pfx, htail]
  simp +decide

/-- Nonempty-pattern form of the leading-occurrence strip. -/
theorem replaceAllF_strip_ne (pat tail : List Char) (hne : pat ≠ [])
    (h : occursIn pat tail = false) :
    ∀ f, replaceAllF pat [] (f + 1) (pat ++ tail) = tail := by
  cases pat with
  | nil => exact absurd rfl hne
  | cons p0 ps => exact replaceAllF_strip p0 ps tail h

/-- takeBefore cuts exactly at the first separator. -/
theorem takeBefore_append (sep : Char) (a b : List Char) (h : ∀ c ∈ a, c ≠ sep) :
    takeBefore sep (a ++ sep :: b) = a := by
  induction a with
  | nil =>
    show takeBefore sep (sep :: b) = []
    unfold takeBefore
    rw [List.takeWhile_cons_of_neg]
    simp
  | cons c as ih =>
    have hc : c ≠ sep := h c (List.mem_cons_self c as)
    have ih' := ih (fun x hx => h x (List.mem_cons_of_mem c hx))
    show takeBefore sep (c :: (as ++ sep :: b)) = c :: as
    unfold takeBefore
    rw [List.takeWhile_cons_of_pos (by simpa using hc)]
    exact congrArg (c :: ·) ih'

/-- takeBefore is the identity when the separator is absent. -/
theorem takeBefore_all (sep : Char) (l : List Char) (h : ∀ c ∈ l, c ≠ sep) :
    takeBefore sep l = l := by
  induction l with
  | nil => rfl
  | cons c as ih =>
    have hc : c ≠ sep := h c (List.mem_cons_self c as)
    have ih' := ih (fun x hx => h x (List.mem_cons_of_mem c hx))
    unfold takeBefore
    rw [List.takeWhile_cons_of_pos (by simpa using hc)]
    exact congrArg (c :: ·) ih'

/-- Characterization of extract_domain on a URL with a recognised scheme, a
host free of slashes and colons, and a path free of colons: the extracted
domain is exactly the host. -/
theorem extract_domain_host (scheme host path : List Char)
    (hs : scheme = "http://".data ∨ scheme = "https://".data)
    (hhost : ∀ c ∈ host, c ≠ '/' ∧ c ≠ ':')
    (hpath : ∀ c ∈ path, c ≠ ':') :
    extract_domain (scheme ++ host ++ '/' :: path) = host := by
  have htailc : ∀ c ∈ host ++ '/' :: path, c ≠ ':' := by
    intro c hc
    rcases List.mem_append.mp hc with h | h
    · exact (hhost c h).2
    · rcases List.mem_cons.mp h with rfl | h
      · decide
      · exact hpath c h
  have hocc1 : occursIn "http://".data (host ++ '/' :: path) = false :=
    occursIn_eq_false_of_not_mem _ _ ':' (by decide) htailc
  have hocc2 : occursIn "https://".data (host ++ '/' :: path) = false :=
    occursIn_eq_false_of_not_mem _ _ ':' (by decide) htailc
  have hslash : ∀ c ∈ host, c ≠ '/' := fun c hc => (hhost c hc).1
  have hcolon : ∀ c ∈ host, c ≠ ':' := fun c hc => (hhost c hc).2
  have hcut : takeBefore ':' (takeBefore '/' (host ++ '/' :: path)) = host := by
    rw [takeBefore_append '/' host path hslash, takeBefore_all ':' host hcolon]
  rcases hs with rfl | rfl
  · have e1 : replaceAll "http://".data [] ("http://".data ++ (host ++ '/' :: path)) =
        host ++ '/' :: path := by
      unfold replaceAll
      exact replaceAllF_strip_ne "http://".data (host ++ '/' :: path) (by decide) hocc1 _
    have e2 : replaceAll "https://".data [] (host ++ '/' :: path) = host ++ '/' :: path := by
      unfold replaceAll
      exact replaceAllF_no_occur _ _ _ hocc2 _
    unfold extract_domain
    rw [List.append_assoc, e1, e2, hcut]
  · have e1 : replaceAll "http://".data [] ("https://".data ++ (host ++ '/' :: path)) =
        "https://".data ++ (host ++ '/' :: path) := by
      unfold replaceAll
      exact replaceAllF_no_occur _ _ _ (no_http_in_https _ htailc) _
    have e2 : replaceAll "https://".data [] ("https://".data ++ (host ++ '/' :: path)) =
        host ++ '/' :: path := by
      unfold replaceAll
      exact replaceAllF_strip_ne "https://".data (host ++ '/' :: path) (by decide) hocc2 _
    unfold extract_domain
    rw [List.append_assoc, e1, e2, hcut]

/-! Failure behaviour of the streaming filter generation. -/

/-- If the first k chunk reads succeed and the read at the k-th offset
raises, the generation delivers exactly the rows of the successful chunks
and then terminates with that error: the failed chunk is not skipped, no
later chunk is read, and the outcome carries the error marker. -/
theorem filterLoopE_abort (read : Nat → Except (List Char) (List JoinedRecord))
    (cs : Nat) (e : List Char) :
    ∀ (k : Nat) (chunks : Nat → List JoinedRecord) (f off total : Nat),
      (∀ j, j < k → read (off + j * cs) = .ok (chunks j)) →
      read (off + k * cs) = .error e →
      off + k * cs < total → k < f →
      filterLoopE read f cs off total = some ((List.range k).flatMap chunks, some e) := by
  intro k
  induction k with
  | zero =>
    intro chunks f off total hok herr hlt hf
    cases f with
    | zero => omega
    | succ f1 =>
      have hofflt : off < total := by simpa using hlt
      have herr' : read off = .error e := by simpa using herr
      simp [filterLoopE, hofflt, herr']
  | succ k ih =>
    intro chunks f off total hok herr hlt hf
    cases f with
    | zero => omega
    | succ f1 =>
      have hofflt : off < total := by
        have : off ≤ off + (k + 1) * cs := Nat.le_add_right _ _
        omega
      have hok0 : read off = .ok (chunks 0) := by
        have := hok 0 (Nat.succ_pos k)
        simpa using this
      have hok' : ∀ j, j < k → read (off + cs + j * cs) = .ok (chunks (j + 1)) := by
        intro j hj
        have := hok (j + 1) (by omega)
        rw [show off + (j + 1) * cs = off + cs + j * cs by ring] at this
        exact this
      have herr' : read (off + cs + k * cs) = .error e := by
        rw [show off + cs + k * cs = off + (k + 1) * cs by ring]
        exact herr
      have hlt' : off + cs + k * cs < total := by
        have := hlt
        rw [show off + (k + 1) * cs = off + cs + k * cs by ring] at this
        exact this
      have hrec := ih (fun j => chunks (j + 1)) f1 (off + cs) total hok' herr' hlt' (by omega)
      simp only [filterLoopE, if_pos hofflt, hok0, hrec, Option.map_some']
      rw [List.range_succ_eq_map, List.flatMap_cons, List.flatMap_map]

/-! Claim theorems. -/

/-- Claim C1 (code bug): the claimed join invariant is the spec's intent,
but the program as written cannot emit any record at all.  The feeds DDL of
process_in_chunks contains the stray token dd (line 93), so the statement
fails to parse and every invocation raises before any table is built or the
join runs.  The first conjunct evaluates the model at the concrete failing
input; the second shows that no input yields a successful run, so no record
is ever emitted into the persisted joined table.  (The join query itself,
lines 141-155, is valid; joinRows_substring proves that any row it emitted
with a present url_domain would satisfy the substring relation.) -/
theorem claim_C1_code_bug :
    process_in_chunks ["https://a.example/feed".data] [] 1 = .error feedsDdlError ∧
    ∀ (feedCol0s : List (List Char)) (src : List RawMetaRow) (cs : Nat),
      process_in_chunks feedCol0s src cs = .error feedsDdlError :=
  ⟨rfl, fun _ _ _ => rfl⟩

/-- Claim C2, counterexample: with chunk size 1, the first page returned by
the chunk query is the first row of the filtered distinct match set (the
second input row), not the filtered content of input row 0 — the LIMIT and
OFFSET apply after WHERE and DISTINCT. -/
theorem claim_C2_counterexample :
    queryChunk [rowNoMatch, rowMatch] ["/about".data] 1 0 = [rowMatch] ∧
    dedupFirst (([rowNoMatch, rowMatch].take 1).filter (rowMatches ["/about".data])) = [] ∧
    rowMatch ∉ [rowNoMatch, rowMatch].take 1 := by
  exact ⟨by decide, by decide, by decide⟩

/-- Claim C2, amended: pagination indexes rows of the deduplicated filtered
match set; the offset still advances by the chunk size each iteration
regardless of matches, and since the match set is no longer than the input
table the concatenated pages are exactly the full match set. -/
theorem claim_C2_amended (tbl : List JoinedRecord) (pats : List (List Char))
    (cs : Nat) (hcs : 1 ≤ cs) :
    filter_about_pages_streaming tbl pats cs =
      some (dedupFirst (tbl.filter (rowMatches pats))) :=
  filter_streaming_run tbl pats cs hcs

/-- Witness for the amended claim C2 at a concrete run. -/
theorem claim_C2_witness :
    filter_about_pages_streaming [rowNoMatch, rowMatch] ["/about".data] 1 =
      some (dedupFirst ([rowNoMatch, rowMatch].filter (rowMatches ["/about".data]))) :=
  claim_C2_amended [rowNoMatch, rowMatch] ["/about".data] 1 (by decide)

/-- Claim C3: filtering with any two positive chunk sizes yields the same
matches — in this deterministic embedding even the same list, hence the
same set. -/
theorem claim_C3 (tbl : List JoinedRecord) (pats : List (List Char))
    (cs1 cs2 : Nat) (h1 : 1 ≤ cs1) (h2 : 1 ≤ cs2) :
    filter_about_pages_streaming tbl pats cs1 =
      filter_about_pages_streaming tbl pats cs2 := by
  rw [filter_streaming_run tbl pats cs1 h1, filter_streaming_run tbl pats cs2 h2]

/-- Witness for claim C3 at concrete chunk sizes 1 and 2. -/
theorem claim_C3_witness :
    filter_about_pages_streaming [rowNoMatch, rowMatch] ["/about".data] 1 =
      filter_about_pages_streaming [rowNoMatch, rowMatch] ["/about".data] 2 :=
  claim_C3 [rowNoMatch, rowMatch] ["/about".data] 1 2 (by decide) (by decide)

/-- Claim C4: a joined row is yielded exactly when it is an input row whose
lower-cased URL contains the lower-cased text of some configured pattern at
any position.  The hypothesis excludes LIKE wildcard characters from the
lower-cased patterns, which holds for every configured about pattern. -/
theorem claim_C4 (tbl : List JoinedRecord) (pats : List (List Char)) (cs : Nat)
    (out : List JoinedRecord) (r : JoinedRecord) (hcs : 1 ≤ cs)
    (hw : ∀ p ∈ pats, '%' ∉ lowerChars p ∧ '_' ∉ lowerChars p)
    (hrun : filter_about_pages_streaming tbl pats cs = some out) :
    r ∈ out ↔ r ∈ tbl ∧ ∃ u, r.url = some u ∧
      ∃ p, p ∈ pats ∧ occursIn (lowerChars p) (lowerChars u) = true := by
  rw [filter_streaming_run tbl pats cs hcs, Option.some.injEq] at hrun
  subst hrun
  rw [mem_dedupFirst, List.mem_filter]
  exact and_congr_right (fun _ => rowMatches_iff pats r hw)

/-- Witness for claim C4: pattern /about admits URL
https://x.example/aboutish (substring, not path-anchored). -/
theorem claim_C4_witness : aboutishRow ∈ [aboutishRow] :=
  (claim_C4 [aboutishRow] ["/about".data, "/bio".data] 1 [aboutishRow] aboutishRow
      (by decide) (by decide) (by decide)).mpr
    ⟨by decide, "https://x.example/aboutish".data, rfl,
      "/about".data, by decide, by decide⟩

/-- Claim C5: every input row matching a pattern is yielded exactly once
across all chunks, duplicates in the input notwithstanding. -/
theorem claim_C5 (tbl : List JoinedRecord) (pats : List (List Char)) (cs : Nat)
    (out : List JoinedRecord) (r : JoinedRecord) (hcs : 1 ≤ cs)
    (hrun : filter_about_pages_streaming tbl pats cs = some out)
    (hr : r ∈ tbl) (hm : rowMatches pats r = true) :
    out.count r = 1 := by
  rw [filter_streaming_run tbl pats cs hcs, Option.some.injEq] at hrun
  subst hrun
  exact List.count_eq_one_of_mem (nodup_dedupFirst _)
    ((mem_dedupFirst _ _).mpr (List.mem_filter.mpr ⟨hr, hm⟩))

/-- Witness for claim C5: a duplicated matching row is yielded once. -/
theorem claim_C5_witness : ([rowMatch].count rowMatch) = 1 :=
  claim_C5 [rowMatch, rowMatch] ["/about".data] 1 [rowMatch] rowMatch
    (by decide) (by decide) (by decide) (by decide)

/-- Claim C6: domain extraction strips the scheme, keeps the part before
the first slash, then the part before the first colon.  The general part
covers every URL with a recognised scheme, a slash- and colon-free host and
a colon-free path; the concrete parts check the two spec examples and the
scheme-plus-port combination. -/
theorem claim_C6 :
    (∀ scheme host path : List Char,
        (scheme = "http://".data ∨ scheme = "https://".data) →
        (∀ c ∈ host, c ≠ '/' ∧ c ≠ ':') →
        (∀ c ∈ path, c ≠ ':') →
        extract_domain (scheme ++ host ++ '/' :: path) = host) ∧
    extract_domain "https://a.example/feed".data = "a.example".data ∧
    extract_domain "a.example:443/x".data = "a.example".data ∧
    extract_domain "https://a.example:443/x".data = "a.example".data :=
  ⟨extract_domain_host, by decide, by decide, by decide⟩

/-- Witness for claim C6 at a concrete scheme, host and path. -/
theorem claim_C6_witness :
    extract_domain ("https://".data ++ "blog.example".data ++ '/' :: "post".data) =
      "blog.example".data :=
  claim_C6.1 "https://".data "blog.example".data "post".data (Or.inr rfl)
    (by decide) (by decide)

/-- Claim C7, counterexample: the repository's fast filter
(find_about_pages_duckdb_fast, filter.py lines 137-142) catches every
exception and returns the empty list, so a failed run is exactly the
result of a successful run with no matches — an empty match list
indistinguishable from a successfully completed run. -/
theorem claim_C7_counterexample :
    find_about_pages_duckdb_fast (.error "IO Error: feeds.csv unreadable".data) =
      find_about_pages_duckdb_fast (.ok ([], [])) ∧
    find_about_pages_duckdb_fast (.error "IO Error: feeds.csv unreadable".data) = [] :=
  ⟨rfl, rfl⟩

/-- Claim C7, amended: the streaming filter generation
(filter_about_pages_streaming) satisfies the claim — when the first failed
chunk read is the k-th one, the generation delivers exactly the rows of the
k preceding chunks and terminates with the error; it never produces an
outcome shaped like a successful completion. -/
theorem claim_C7_amended (read : Nat → Except (List Char) (List JoinedRecord))
    (cs : Nat) (e : List Char) (k : Nat) (chunks : Nat → List JoinedRecord)
    (f total : Nat)
    (hok : ∀ j, j < k → read (j * cs) = .ok (chunks j))
    (herr : read (k * cs) = .error e)
    (hlt : k * cs < total) (hf : k < f) :
    filterLoopE read f cs 0 total = some ((List.range k).flatMap chunks, some e) ∧
    ∀ rows, filterLoopE read f cs 0 total ≠ some (rows, none) := by
  have habort := filterLoopE_abort read cs e k chunks f 0 total
    (by intro j hj; simpa using hok j hj) (by simpa using herr) (by simpa using hlt) hf
  refine ⟨habort, ?_⟩
  intro rows hcontra
  rw [habort] at hcontra
  simp at hcontra

/-- Witness for the amended claim C7: a concrete oracle whose second read
fails yields the first chunk and the error. -/
theorem claim_C7_witness :
    filterLoopE badRead 5 1 0 3 = some ([rowMatch], some "disk failure".data) ∧
    ∀ rows, filterLoopE badRead 5 1 0 3 ≠ some (rows, none) := by
  have h := claim_C7_amended badRead 1 "disk failure".data 1
    (fun _ => [rowMatch]) 5 3
    (fun j hj => by
      have hj0 : j = 0 := by omega
      subst hj0
      rfl)
    (by rfl) (by decide) (by decide)
  have hconv : (List.range 1).flatMap (fun _ => ([rowMatch] : List JoinedRecord)) =
      [rowMatch] := by decide
  rw [hconv] at h
  exact h

/-- Claim C8, counterexample: a metadata row with a NULL URL column is not
skipped by the load — it is inserted with NULL url and NULL url_domain, and
no skipped-row count exists anywhere in the loader. -/
theorem claim_C8_counterexample :
    load_urls_meta [nullUrlRaw] 1 = some [nullUrlMeta] ∧
    load_urls_meta [nullUrlRaw] 1 ≠ some [] :=
  ⟨by decide, by decide⟩

/-- Claim C8, amended: the load keeps every source row (no skipping and no
skip count); a row with NULL URL is loaded with NULL url and url_domain,
and the load completes normally for all rows. -/
theorem claim_C8_amended (src : List RawMetaRow) (cs : Nat) (hcs : 1 ≤ cs) :
    ∃ out, load_urls_meta src cs = some out ∧ out.length = src.length ∧
      ∀ r ∈ src, r.column0 = none →
        (⟨none, none, r.column2, r.column3⟩ : MetaRecord) ∈ out := by
  refine ⟨src.map rawToMeta, load_urls_meta_run src cs hcs, by simp, ?_⟩
  intro r hr h0
  exact List.mem_map.mpr ⟨r, hr, by simp [rawToMeta, h0]⟩

/-- Witness for the amended claim C8 at a concrete load. -/
theorem claim_C8_witness :
    ∃ out, load_urls_meta [nullUrlRaw] 1 = some out ∧ out.length = 1 ∧
      (⟨none, none, nullUrlRaw.column2, nullUrlRaw.column3⟩ : MetaRecord) ∈ out := by
  obtain ⟨out, h1, h2, h3⟩ := claim_C8_amended [nullUrlRaw] 1 (by decide)
  exact ⟨out, h1, by simpa using h2, h3 nullUrlRaw (by decide) rfl⟩

/-- Claim C9: with a positive chunk size both chunked loops run for exactly
the ceiling of total over chunk size iterations (the counter value is also
unique across fuels), with chunk size zero and a nonempty input the loop
never terminates, and both concrete loop bodies terminate in lockstep with
the iteration counter. -/
theorem claim_C9 (total cs : Nat) :
    (1 ≤ cs →
      loopSteps (cdiv total cs + 1) cs 0 total = some (cdiv total cs) ∧
      ∀ f k, loopSteps f cs 0 total = some k → k = cdiv total cs) ∧
    (cs = 0 → 0 < total → ∀ f, loopSteps f cs 0 total = none) ∧
    (∀ (f : Nat) (tbl : List JoinedRecord) (pats : List (List Char)),
      (chunkLoopF (queryChunk tbl pats cs) f cs 0 total).isSome =
        (loopSteps f cs 0 total).isSome) ∧
    (∀ (f : Nat) (src : List RawMetaRow),
      (chunkLoopF (loadChunk src cs) f cs 0 total).isSome =
        (loopSteps f cs 0 total).isSome) := by
  refine ⟨fun hcs => ⟨?_, ?_⟩, fun hcs0 htotal f => ?_,
    fun f tbl pats => ?_, fun f src => ?_⟩
  · have hbound : total ≤ 0 + (cdiv total cs) * cs := by
      have hmod := Nat.div_add_mod (total + cs - 1) cs
      have hlt : (total + cs - 1) % cs < cs := Nat.mod_lt _ (by omega)
      have hcomm : cs * ((total + cs - 1) / cs) = ((total + cs - 1) / cs) * cs :=
        Nat.mul_comm _ _
      unfold cdiv
      omega
    have h := loopSteps_run cs total hcs (cdiv total cs) 0 hbound
    simpa using h
  · intro f k h
    have := loopSteps_unique cs total hcs f 0 k h
    simpa using this
  · subst hcs0
    exact loopSteps_zero_cs total f 0 htotal
  · exact chunkLoopF_isSome_eq_loopSteps _ f cs 0 total
  · exact chunkLoopF_isSome_eq_loopSteps _ f cs 0 total

/-- Witness for claim C9: five rows with chunk size two need exactly three
iterations; with chunk size zero no fuel suffices. -/
theorem claim_C9_witness :
    loopSteps 4 2 0 5 = some 3 ∧ loopSteps 100 0 0 5 = none := by
  constructor
  · exact ((claim_C9 5 2).1 (by decide)).1
  · exact ((claim_C9 5 0).2.1 rfl (by decide)) 100

/-- Claim C10: the two filter implementations disagree.  Each streaming
conjunct runs filter_about_pages_streaming on a one-row persisted joined
table whose row satisfies the substring domain relation of the upstream
join; each fast conjunct runs the filter.py query on the corresponding raw
feed and URL columns.  On the aboutish URL the streaming filter yields the
record while the fast filter yields nothing (its patterns must end the URL
or precede a question mark); on the upper-case ABOUT URL the streaming
filter matches after lower-casing while the case-sensitive fast filter does
not; on the www URL the streaming filter yields the record while the fast
filter drops it, its equality join comparing whole regex matches
(scheme-retaining) that differ between the bare and the www domain; and on
an exact lower-case boundary match with identical domains the fast filter
does return the URL, so the disagreement is between the two match
semantics, not a degenerate emptiness. -/
theorem claim_C10 :
    filter_about_pages_streaming [aboutishRow] ABOUT_PATTERNS 1 = some [aboutishRow] ∧
    fastQuery ["https://x.example/feed".data] ["https://x.example/aboutish".data] = [] ∧
    filter_about_pages_streaming [upperRow] ABOUT_PATTERNS 1 = some [upperRow] ∧
    fastQuery ["https://x.example/feed".data] ["https://x.example/ABOUT".data] = [] ∧
    filter_about_pages_streaming [wwwRow] ABOUT_PATTERNS 1 = some [wwwRow] ∧
    fastQuery ["https://example.com/feed".data]
      ["https://www.example.com/about".data] = [] ∧
    fastQuery ["https://x.example/feed".data] ["https://x.example/about".data] =
      ["https://x.example/about".data] :=
  ⟨by decide, by decide, by decide, by decide, by decide, by decide, by decide⟩
